import Mathlib

/-! go-product-rec: the recommender of `recommendations/recommendations.go`.

A shallow embedding of `getRecommendations` and `MapData` together with the parts of
gonum's `mat.Dense` they touch (`NewDense`, `At`).

* float64 values are only ever compared (`== 0` and `>`), never computed with, so a value is
  modelled by what those comparisons can observe: NaN, the two infinities, or an exact rational.
* a Go call either returns or panics; that is `Except Panic`.
* gonum's SVD is a library routine and enters as a parameter.
* `sort.Slice` is a library routine too.  Where only its documented contract matters (the
  result is a permutation, sorted when the less function is a strict weak order) it is a
  parameter constrained by `SortSliceSpec`.  Where the order of equal elements matters it is
  `goSortSlice`, the routine the `sort` package runs since Go 1.19.
-/

namespace Recommendations

/-! ## float64 -/

/-- A float64 as seen by Go's comparison operators.  Both signed zeros are `fin 0`
(they compare equal and neither is greater than the other). -/
inductive F64 where
  | nan
  | negInf
  | posInf
  | fin (q : ℚ)
  deriving DecidableEq

namespace F64

/-- Go's `x > y` on float64: false as soon as one side is NaN. -/
def gt : F64 → F64 → Bool
  | fin x, fin y => decide (y < x)
  | posInf, fin _ => true
  | posInf, negInf => true
  | fin _, negInf => true
  | _, _ => false

/-- Go's `x == y` on float64: NaN equals nothing, itself included. -/
def eq : F64 → F64 → Bool
  | fin x, fin y => decide (x = y)
  | posInf, posInf => true
  | negInf, negInf => true
  | _, _ => false

/-- Go's `x >= y` on float64. -/
def ge (x y : F64) : Bool := gt x y || eq x y

/-- The test `x == 0` of the candidate filter. -/
def isZero (x : F64) : Bool := eq x (fin 0)

/-- Neither NaN nor an infinity. -/
def isFinite : F64 → Bool
  | fin _ => true
  | _ => false

end F64

/-! ## Panics and results -/

/-- The values a panic can carry in this program. -/
inductive Panic where
  /-- gonum `mat.ErrRowAccess`, "matrix: row index out of range". -/
  | ErrRowAccess
  /-- gonum `mat.ErrColAccess`, "matrix: column index out of range". -/
  | ErrColAccess
  /-- gonum `mat.ErrShape`, "matrix: dimension mismatch". -/
  | ErrShape
  /-- gonum `mat.ErrZeroLength`. -/
  | ErrZeroLength
  /-- gonum `mat.ErrNegativeDimension`. -/
  | ErrNegativeDimension
  /-- Go runtime error: slice index out of range. -/
  | runtimeIndex
  /-- The call `panic(msg)` with a string. -/
  | message (msg : String)
  deriving DecidableEq

/-- Outcome of a Go call: `.ok v` when it returns `v` to its caller, `.error p` when it
panics with value `p` and so hands nothing back. -/
abbrev GoResult (α : Type) := Except Panic α

/-! ## gonum `mat.Dense` -/

/-- The `RawMatrix` of a `mat.Dense`: row-major `data`, row `i` starting at `i * stride`. -/
structure Dense where
  rows : Nat
  cols : Nat
  stride : Nat
  data : List F64

namespace Dense

/-- Every cell inside the declared shape has backing storage, as for any matrix built by
gonum's constructors. -/
def WellFormed (m : Dense) : Prop :=
  ∀ i j : Nat, i < m.rows → j < m.cols → i * m.stride + j < m.data.length

/-- The method `(*Dense).At(i, j)`: row check, then column check, then the read
`data[i*stride + j]`. -/
def At (m : Dense) (i j : Int) : GoResult F64 :=
  if i < 0 ∨ (m.rows : Int) ≤ i then .error Panic.ErrRowAccess
  else if j < 0 ∨ (m.cols : Int) ≤ j then .error Panic.ErrColAccess
  else
    match m.data[i.toNat * m.stride + j.toNat]? with
    | some v => .ok v
    | none => .error Panic.runtimeIndex

end Dense

/-- The constructor `mat.NewDense(r, c, data)`; `data = none` is Go's nil slice, for which a
zero matrix is allocated. -/
def NewDense (r c : Int) (data : Option (List F64)) : GoResult Dense :=
  if r ≤ 0 ∨ c ≤ 0 then
    if r = 0 ∨ c = 0 then .error Panic.ErrZeroLength else .error Panic.ErrNegativeDimension
  else
    match data with
    | some d =>
      if r * c ≠ (d.length : Int) then .error Panic.ErrShape
      else .ok ⟨r.toNat, c.toNat, c.toNat, d⟩
    | none => .ok ⟨r.toNat, c.toNat, c.toNat, List.replicate (r * c).toNat (F64.fin 0)⟩

/-! ## `sort.Slice` -/

/-- The shape of `sort.Slice(x, less)` on a slice of ints: the comparison may panic, and then
so does the sort.  `less a b` compares two elements of the slice. -/
abbrev SortSlice := (Nat → Nat → GoResult Bool) → List Nat → GoResult (List Nat)

/-- On `xs` the comparison `less` never panics and answers what `lt` answers. -/
def Agrees (less : Nat → Nat → GoResult Bool) (lt : Nat → Nat → Bool) (xs : List Nat) : Prop :=
  ∀ a ∈ xs, ∀ b ∈ xs, less a b = .ok (lt a b)

/-- The requirement the `sort` package puts on a less function: irreflexive, transitive, and
with transitive incomparability. -/
def StrictWeak (lt : Nat → Nat → Bool) : Prop :=
  (∀ a, lt a a = false) ∧
  (∀ a b c, lt a b = true → lt b c = true → lt a c = true) ∧
  (∀ a b c, lt a b = false → lt b c = false → lt a c = false)

/-- What the documentation of `sort.Slice` promises: the slice is rearranged (a permutation),
and when `less` meets the package's requirement no element is followed by one that must sort
before it.  Nothing is promised about the order of equal elements. -/
structure SortSliceSpec (S : SortSlice) : Prop where
  perm : ∀ less lt xs, Agrees less lt xs → ∃ ys, S less xs = .ok ys ∧ ys.Perm xs
  sorted : ∀ less lt xs ys, Agrees less lt xs → StrictWeak lt → S less xs = .ok ys →
    ys.Pairwise (fun a b => lt b a = false)

/-- Insert `a` into a sorted list, behind every element that must sort before it. -/
def insertSorted (less : Nat → Nat → GoResult Bool) (a : Nat) : List Nat → GoResult (List Nat)
  | [] => pure [a]
  | b :: l => do
    if (← less b a) then
      let rest ← insertSorted less a l
      pure (b :: rest)
    else
      pure (a :: b :: l)

/-- A stable insertion sort on lists: an implementation that meets `sort.Slice`'s contract. -/
def stableSortSlice : SortSlice := fun less xs =>
  xs.foldrM (fun a sorted => insertSorted less a sorted) []

/-! ## Go's `sort.Slice`

The routine behind `sort.Slice` since Go 1.19: `pdqsort_func` of `sort/zsortfunc.go`, run on
`data[0:len]` with `limit = bits.Len(len)`.  The slice is a list, `data.Less(i, j)` is
`dataLess`, `data.Swap(i, j)` is `dataSwap`.  Loops carry a bound that they cannot exceed.
The pseudo-random step `xorshift.Next` of `breakPatterns` is the parameter `next`. -/

/-- The call `data.Less(i, j)`: the user's less function on the elements at `i` and `j`. -/
def dataLess (less : Nat → Nat → GoResult Bool) (data : List Nat) (i j : Nat) : GoResult Bool :=
  less (data.getD i 0) (data.getD j 0)

/-- The call `data.Swap(i, j)`. -/
def dataSwap (data : List Nat) (i j : Nat) : List Nat :=
  (data.set i (data.getD j 0)).set j (data.getD i 0)

/-- The inner loop of insertion sort, `for j := i; j > a && data.Less(j, j-1); j--`, swapping
`j` and `j-1`. -/
def insertionInner (less : Nat → Nat → GoResult Bool) (a : Nat) :
    Nat → List Nat → GoResult (List Nat)
  | 0, data => pure data
  | j + 1, data =>
    if a < j + 1 then do
      if (← dataLess less data (j + 1) j) then
        insertionInner less a j (dataSwap data (j + 1) j)
      else
        pure data
    else
      pure data

/-- The function `insertionSortLessFunc(data, a, b)`: `for i := a + 1; i < b; i++`. -/
def insertionSortLessFunc (less : Nat → Nat → GoResult Bool) (data : List Nat) (a b : Nat) :
    GoResult (List Nat) :=
  (List.range' (a + 1) (b - (a + 1))).foldlM (fun data i => insertionInner less a i data) data

/-- The loop of `siftDownLessFunc(data, lo, hi, first)`, from `root`. -/
def siftDownLoop (less : Nat → Nat → GoResult Bool) (hi first : Nat) :
    Nat → List Nat → Nat → GoResult (List Nat)
  | 0, data, _ => pure data
  | fuel + 1, data, root => do
    let child := 2 * root + 1
    if child ≥ hi then
      pure data
    else
      let goRight ←
        if child + 1 < hi then dataLess less data (first + child) (first + child + 1)
        else pure false
      let child := if goRight then child + 1 else child
      if !(← dataLess less data (first + root) (first + child)) then
        pure data
      else
        siftDownLoop less hi first fuel (dataSwap data (first + root) (first + child)) child

/-- The function `siftDownLessFunc(data, lo, hi, first)`. -/
def siftDownLessFunc (less : Nat → Nat → GoResult Bool) (data : List Nat) (lo hi first : Nat) :
    GoResult (List Nat) :=
  siftDownLoop less hi first hi data lo

/-- The function `heapSortLessFunc(data, a, b)`. -/
def heapSortLessFunc (less : Nat → Nat → GoResult Bool) (data : List Nat) (a b : Nat) :
    GoResult (List Nat) := do
  let first := a
  let lo := 0
  let hi := b - a
  let data ← (List.range ((hi - 1) / 2 + 1)).reverse.foldlM
    (fun data i => siftDownLessFunc less data i hi first) data
  (List.range hi).reverse.foldlM
    (fun data i => siftDownLessFunc less (dataSwap data first (first + i)) lo i first) data

/-- The loop `for i <= j && cond(i) { i++ }`; it gives the final `i`. -/
def scanUp (cond : Nat → GoResult Bool) (j : Nat) : Nat → Nat → GoResult Nat
  | 0, i => pure i
  | fuel + 1, i =>
    if i ≤ j then do
      if (← cond i) then scanUp cond j fuel (i + 1) else pure i
    else
      pure i

/-- The loop `for i <= j && cond(j) { j-- }`; it gives the final `j`. -/
def scanDown (cond : Nat → GoResult Bool) (i : Nat) : Nat → Nat → GoResult Nat
  | 0, j => pure j
  | fuel + 1, j =>
    if i ≤ j then do
      if (← cond j) then scanDown cond i fuel (j - 1) else pure j
    else
      pure j

/-- The second loop of `partitionLessFunc`; it gives the data and the final `j`. -/
def partitionLoop (less : Nat → Nat → GoResult Bool) (a : Nat) :
    Nat → List Nat → Nat → Nat → GoResult (List Nat × Nat)
  | 0, data, _, j => pure (data, j)
  | fuel + 1, data, i, j => do
    let i ← scanUp (fun i => dataLess less data i a) j data.length i
    let j ← scanDown (fun j => do pure (!(← dataLess less data j a))) i data.length j
    if i > j then
      pure (data, j)
    else
      partitionLoop less a fuel (dataSwap data i j) (i + 1) (j - 1)

/-- The function `partitionLessFunc(data, a, b, pivot)`; it gives the data, `newpivot` and
`alreadyPartitioned`. -/
def partitionLessFunc (less : Nat → Nat → GoResult Bool) (data : List Nat) (a b pivot : Nat) :
    GoResult (List Nat × Nat × Bool) := do
  let data := dataSwap data a pivot
  let i := a + 1
  let j := b - 1
  let i ← scanUp (fun i => dataLess less data i a) j data.length i
  let j ← scanDown (fun j => do pure (!(← dataLess less data j a))) i data.length j
  if i > j then
    pure (dataSwap data j a, j, true)
  else
    let data := dataSwap data i j
    let (data, j) ← partitionLoop less a data.length data (i + 1) (j - 1)
    pure (dataSwap data j a, j, false)

/-- The loop of `partitionEqualLessFunc`; it gives the data and the final `i`. -/
def partitionEqualLoop (less : Nat → Nat → GoResult Bool) (a : Nat) :
    Nat → List Nat → Nat → Nat → GoResult (List Nat × Nat)
  | 0, data, i, _ => pure (data, i)
  | fuel + 1, data, i, j => do
    let i ← scanUp (fun i => do pure (!(← dataLess less data a i))) j data.length i
    let j ← scanDown (fun j => dataLess less data a j) i data.length j
    if i > j then
      pure (data, i)
    else
      partitionEqualLoop less a fuel (dataSwap data i j) (i + 1) (j - 1)

/-- The function `partitionEqualLessFunc(data, a, b, pivot)`; it gives the data and
`newpivot`. -/
def partitionEqualLessFunc (less : Nat → Nat → GoResult Bool) (data : List Nat)
    (a b pivot : Nat) : GoResult (List Nat × Nat) :=
  partitionEqualLoop less a data.length (dataSwap data a pivot) (a + 1) (b - 1)

/-- The loop `for j := i - 1; j >= 1; j--` of `partialInsertionSortLessFunc`, from `j`. -/
def shiftSmaller (less : Nat → Nat → GoResult Bool) : Nat → List Nat → GoResult (List Nat)
  | 0, data => pure data
  | j + 1, data => do
    if !(← dataLess less data (j + 1) j) then
      pure data
    else
      shiftSmaller less j (dataSwap data (j + 1) j)

/-- The loop `for j := i + 1; j < b; j++` of `partialInsertionSortLessFunc`, from `j`. -/
def shiftGreater (less : Nat → Nat → GoResult Bool) (b : Nat) :
    Nat → List Nat → Nat → GoResult (List Nat)
  | 0, data, _ => pure data
  | fuel + 1, data, j =>
    if j < b then do
      if !(← dataLess less data j (j - 1)) then
        pure data
      else
        shiftGreater less b fuel (dataSwap data j (j - 1)) (j + 1)
    else
      pure data

/-- The loop `for j := 0; j < maxSteps; j++` of `partialInsertionSortLessFunc`, with `steps`
rounds left. -/
def partialInsertionLoop (less : Nat → Nat → GoResult Bool) (a b : Nat) :
    Nat → List Nat → Nat → GoResult (List Nat × Bool)
  | 0, data, _ => pure (data, false)
  | steps + 1, data, i => do
    let i ← scanUp (fun i => do pure (!(← dataLess less data i (i - 1)))) (b - 1) data.length i
    if i = b then
      pure (data, true)
    else if b - a < 50 then
      pure (data, false)
    else
      let data := dataSwap data i (i - 1)
      let data ← if i - a ≥ 2 then shiftSmaller less (i - 1) data else pure data
      let data ← if b - i ≥ 2 then shiftGreater less b data.length data (i + 1) else pure data
      partialInsertionLoop less a b steps data i

/-- The function `partialInsertionSortLessFunc(data, a, b)`, with `maxSteps = 5` and
`shortestShifting = 50`; the flag tells whether the slice is sorted at the end. -/
def partialInsertionSortLessFunc (less : Nat → Nat → GoResult Bool) (data : List Nat)
    (a b : Nat) : GoResult (List Nat × Bool) :=
  partialInsertionLoop less a b 5 data (a + 1)

/-- The number of bits of `n`, with `fuel` halvings allowed. -/
def bitsLenAux : Nat → Nat → Nat
  | 0, _ => 0
  | fuel + 1, n => if n = 0 then 0 else bitsLenAux fuel (n / 2) + 1

/-- The function `bits.Len(n)`. -/
def bitsLen (n : Nat) : Nat := bitsLenAux n n

/-- The function `breakPatternsLessFunc(data, a, b)`; `next` is `xorshift.Next`. -/
def breakPatternsLessFunc (next : Nat → Nat) (data : List Nat) (a b : Nat) : List Nat :=
  let length := b - a
  if length ≥ 8 then
    let modulus := 2 ^ bitsLen length
    let idx := a + (length / 4) * 2 - 1
    let other := fun (random : Nat) =>
      if random % modulus ≥ length then random % modulus - length else random % modulus
    let r1 := next length
    let r2 := next r1
    let r3 := next r2
    let data := dataSwap data (idx - 1 + 0) (a + other r1)
    let data := dataSwap data (idx - 1 + 1) (a + other r2)
    dataSwap data (idx - 1 + 2) (a + other r3)
  else
    data

/-- The type `sortedHint`. -/
inductive sortedHint where
  | unknownHint
  | increasingHint
  | decreasingHint
  deriving DecidableEq

/-- The function `order2LessFunc(data, a, b, swaps)`; it gives the two indices and the
updated `swaps`. -/
def order2LessFunc (less : Nat → Nat → GoResult Bool) (data : List Nat) (a b swaps : Nat) :
    GoResult (Nat × Nat × Nat) := do
  if (← dataLess less data b a) then
    pure (b, a, swaps + 1)
  else
    pure (a, b, swaps)

/-- The function `medianLessFunc(data, a, b, c, swaps)`. -/
def medianLessFunc (less : Nat → Nat → GoResult Bool) (data : List Nat) (a b c swaps : Nat) :
    GoResult (Nat × Nat) := do
  let (a, b, swaps) ← order2LessFunc less data a b swaps
  let (b, _, swaps) ← order2LessFunc less data b c swaps
  let (_, b, swaps) ← order2LessFunc less data a b swaps
  pure (b, swaps)

/-- The function `medianAdjacentLessFunc(data, a, swaps)`. -/
def medianAdjacentLessFunc (less : Nat → Nat → GoResult Bool) (data : List Nat)
    (a swaps : Nat) : GoResult (Nat × Nat) :=
  medianLessFunc less data (a - 1) a (a + 1) swaps

/-- The function `choosePivotLessFunc(data, a, b)`, with `shortestNinther = 50` and
`maxSwaps = 4 * 3`. -/
def choosePivotLessFunc (less : Nat → Nat → GoResult Bool) (data : List Nat) (a b : Nat) :
    GoResult (Nat × sortedHint) := do
  let l := b - a
  let swaps := 0
  let i := a + l / 4 * 1
  let j := a + l / 4 * 2
  let k := a + l / 4 * 3
  let (j, swaps) ←
    if l ≥ 8 then do
      let (i, j, k, swaps) ←
        if l ≥ 50 then do
          let (i, swaps) ← medianAdjacentLessFunc less data i swaps
          let (j, swaps) ← medianAdjacentLessFunc less data j swaps
          let (k, swaps) ← medianAdjacentLessFunc less data k swaps
          pure (i, j, k, swaps)
        else
          pure (i, j, k, swaps)
      medianLessFunc less data i j k swaps
    else
      pure (j, swaps)
  if swaps = 0 then
    pure (j, sortedHint.increasingHint)
  else if swaps = 4 * 3 then
    pure (j, sortedHint.decreasingHint)
  else
    pure (j, sortedHint.unknownHint)

/-- The loop of `reverseRangeLessFunc`. -/
def reverseRangeLoop : Nat → List Nat → Nat → Nat → List Nat
  | 0, data, _, _ => data
  | fuel + 1, data, i, j =>
    if i < j then reverseRangeLoop fuel (dataSwap data i j) (i + 1) (j - 1) else data

/-- The function `reverseRangeLessFunc(data, a, b)`. -/
def reverseRangeLessFunc (data : List Nat) (a b : Nat) : List Nat :=
  reverseRangeLoop data.length data a (b - 1)

/-- The function `pdqsortLessFunc(data, a, b, limit)`, one round of its `for` loop per step,
with the loop variables `wasBalanced` and `wasPartitioned` as arguments (a call starts with
both true).  `fuel` bounds the length `b - a`, which shrinks with every round and every
recursive call; at `fuel = 0` the range is empty and the first branch of the loop applies. -/
def pdqsortLessFunc (next : Nat → Nat) (less : Nat → Nat → GoResult Bool) :
    Nat → List Nat → Nat → Nat → Nat → Bool → Bool → GoResult (List Nat)
  | 0, data, a, b, _, _, _ => insertionSortLessFunc less data a b
  | fuel + 1, data, a, b, limit, wasBalanced, wasPartitioned => do
    let length := b - a
    if length ≤ 12 then
      insertionSortLessFunc less data a b
    else if limit = 0 then
      heapSortLessFunc less data a b
    else
      let (data, limit) :=
        if !wasBalanced then (breakPatternsLessFunc next data a b, limit - 1) else (data, limit)
      let (pivot, hint) ← choosePivotLessFunc less data a b
      let (data, pivot, hint) :=
        if hint = sortedHint.decreasingHint then
          (reverseRangeLessFunc data a b, (b - 1) - (pivot - a), sortedHint.increasingHint)
        else (data, pivot, hint)
      let (data, sorted) ←
        if wasBalanced && wasPartitioned && hint = sortedHint.increasingHint then
          partialInsertionSortLessFunc less data a b
        else pure (data, false)
      if sorted then
        pure data
      else
        let manyDuplicates ←
          if a > 0 then do pure (!(← dataLess less data (a - 1) pivot)) else pure false
        if manyDuplicates then do
          let (data, mid) ← partitionEqualLessFunc less data a b pivot
          pdqsortLessFunc next less fuel data mid b limit wasBalanced wasPartitioned
        else do
          let (data, mid, alreadyPartitioned) ← partitionLessFunc less data a b pivot
          let wasPartitioned := alreadyPartitioned
          let leftLen := mid - a
          let rightLen := b - mid
          let balanceThreshold := length / 8
          if leftLen < rightLen then
            let wasBalanced := decide (leftLen ≥ balanceThreshold)
            let data ← pdqsortLessFunc next less fuel data a mid limit true true
            pdqsortLessFunc next less fuel data (mid + 1) b limit wasBalanced wasPartitioned
          else
            let wasBalanced := decide (rightLen ≥ balanceThreshold)
            let data ← pdqsortLessFunc next less fuel data (mid + 1) b limit true true
            pdqsortLessFunc next less fuel data a mid limit wasBalanced wasPartitioned

/-- The function `sort.Slice(x, less)` of Go 1.19 and later. -/
def goSortSlice (next : Nat → Nat) : SortSlice := fun less x =>
  pdqsortLessFunc next less x.length x 0 x.length (bitsLen x.length) true true

/-! ## The repository's functions -/

/-- The closure handed to `sort.Slice`, on two elements `a`, `b` of the slice:
`approxMatrix.At(user, a) > approxMatrix.At(user, b)`. -/
def lessFunc (approxMatrix : Dense) (user : Int) (a b : Nat) : GoResult Bool := do
  let x ← approxMatrix.At user a
  let y ← approxMatrix.At user b
  pure (F64.gt x y)

/-- One pass of the loop body of `getRecommendations`: column `i` is appended when
`originalMatrix.At(user, i) == 0`. -/
def loopBody (originalMatrix : Dense) (user : Int) (recommendations : List Nat) (i : Nat) :
    GoResult (List Nat) := do
  if (← originalMatrix.At user i).isZero then
    pure (recommendations ++ [i])
  else
    pure recommendations

/-- The function `getRecommendations(user, originalMatrix, approxMatrix)`. -/
def getRecommendations (sortSlice : SortSlice) (user : Int) (originalMatrix approxMatrix : Dense) :
    GoResult (List Nat) := do
  let numItems := originalMatrix.cols
  let recommendations ← (List.range numItems).foldlM (loopBody originalMatrix user) []
  sortSlice (lessFunc approxMatrix user) recommendations

/-- The use `MapData` makes of gonum's `mat.SVD`: `Factorize` is the flag returned by
`svd.Factorize(R, mat.SVDThin)`, `approxR` the matrix that `UTo`, `Values`, `VTo` and
`Product` build from a successful factorization.  The float64 numerics are not modelled. -/
structure SVD where
  Factorize : Dense → Bool
  approxR : Dense → Dense

/-- The function `MapData(data, userIndex)`.  Printing the approximated matrix has no effect on
the result and is left out. -/
def MapData (sortSlice : SortSlice) (svd : SVD) (data : Option (List F64)) (userIndex : Int) :
    GoResult (List Nat) := do
  let R ← NewDense 5 4 data
  let ok := svd.Factorize R
  if !ok then
    throw (Panic.message "SVD factorization failed")
  let approxR := svd.approxR R
  let recommendedItems ← getRecommendations sortSlice userIndex R approxR
  pure recommendedItems

/-! ## Specification-side definitions -/

/-- Whether `R[user, j] == 0` holds: the entry exists and is zero. -/
def isCandidate (R : Dense) (user : Int) (j : Nat) : Bool :=
  match R.At user j with
  | .ok v => v.isZero
  | .error _ => false

/-- The candidate set of the specification: the columns `j` with `R[user, j] == 0`, in
ascending order. -/
def zeroColumns (R : Dense) (user : Int) : List Nat :=
  (List.range R.cols).filter (isCandidate R user)

/-- The entry `m[user, j]`, with 0 standing in where `At` would panic. -/
def scoreOf (m : Dense) (user : Int) (j : Nat) : F64 :=
  match m.At user j with
  | .ok v => v
  | .error _ => F64.fin 0

/-- The order `lessFunc` computes wherever it does not panic. -/
def scoreLt (m : Dense) (user : Int) (a b : Nat) : Bool :=
  F64.gt (scoreOf m user a) (scoreOf m user b)

/-- The sample interaction matrix of the walkthrough and of `TestMapData`, row-major. -/
def sampleData : List F64 :=
  [5, 3, 0, 1,
   4, 0, 0, 1,
   1, 1, 0, 5,
   1, 0, 0, 4,
   0, 1, 5, 4].map (fun (n : Int) => F64.fin n)

/-- An SVD whose reconstruction is exact. -/
def exactSVD : SVD := ⟨fun _ => true, fun R => R⟩

/-- An SVD whose factorization never succeeds. -/
def failingSVD : SVD := ⟨fun _ => false, fun R => R⟩

/-- The sample data as the 5x4 matrix `MapData` builds from it. -/
def sampleR : Dense := ⟨5, 4, 4, sampleData⟩

/-- A 5x4 matrix of scores in which, on every row, later columns score higher. -/
def risingScores : Dense :=
  ⟨5, 4, 4, (List.range 20).map (fun n => F64.fin (n : Int))⟩

/-- An SVD whose reconstruction is `risingScores`, whatever the input. -/
def risingSVD : SVD := ⟨fun _ => true, fun _ => risingScores⟩

/-- One user who has interacted with neither of two items. -/
def tieR : Dense := ⟨1, 2, 2, [F64.fin 0, F64.fin 0]⟩

/-- Reconstructed scores that are equal for both items of `tieR`. -/
def tieA : Dense := ⟨1, 2, 2, [F64.fin 3, F64.fin 3]⟩

/-- A well-formed 2x3 interaction matrix, row-major: `[[1,0,2],[0,3,0]]`. -/
def twoByThree : List F64 :=
  [1, 0, 2,
   0, 3, 0].map (fun (n : Int) => F64.fin n)

/-- The empty matrix, the zero value of `mat.Dense`. -/
def emptyDense : Dense := ⟨0, 0, 0, []⟩

/-- One user who has interacted with both of two items. -/
def fullRow : Dense := ⟨1, 2, 2, [F64.fin 2, F64.fin 5]⟩

/-- One user who has interacted with none of thirteen items. -/
def thirteenR : Dense := ⟨1, 13, 13, List.replicate 13 (F64.fin 0)⟩

/-- Reconstructed scores for `thirteenR`: 1 for items 0 to 11 and 2 for item 12. -/
def thirteenA : Dense := ⟨1, 13, 13, List.replicate 12 (F64.fin 1) ++ [F64.fin 2]⟩

/-! ## Auxiliary facts -/

theorem Dense.At_ok (m : Dense) (hm : m.WellFormed) (user : Int) (j : Nat)
    (h0 : 0 ≤ user) (h1 : user < m.rows) (hj : j < m.cols) :
    ∃ v, m.At user j = .ok v ∧ v ∈ m.data := by
  have hb := hm user.toNat j (by omega) hj
  refine ⟨m.data.get ⟨user.toNat * m.stride + j, hb⟩, ?_, List.get_mem _ _ _⟩
  unfold Dense.At
  rw [if_neg (by omega), if_neg (by omega)]
  simp [List.getElem?_eq_getElem hb]

theorem Dense.At_row_error (m : Dense) (user j : Int) (h : user < 0 ∨ (m.rows : Int) ≤ user) :
    m.At user j = .error Panic.ErrRowAccess := by
  unfold Dense.At
  rw [if_pos h]

theorem foldlM_loopBody (R : Dense) (user : Int) (l acc : List Nat)
    (h : ∀ j ∈ l, ∃ v, R.At user j = .ok v) :
    l.foldlM (loopBody R user) acc = .ok (acc ++ l.filter (isCandidate R user)) := by
  induction l generalizing acc with
  | nil => simp [pure, Except.pure]
  | cons a l ih =>
    obtain ⟨v, hv⟩ := h a (List.mem_cons_self _ _)
    have hl : ∀ j ∈ l, ∃ v, R.At user j = .ok v := fun j hj => h j (List.mem_cons_of_mem _ hj)
    rw [List.foldlM_cons]
    cases hz : v.isZero
    · have : loopBody R user acc a = .ok acc := by
        simp [loopBody, hv, hz, bind, Except.bind, pure, Except.pure]
      rw [this]
      show l.foldlM (loopBody R user) acc = _
      rw [ih acc hl, List.filter_cons]
      simp [isCandidate, hv, hz]
    · have : loopBody R user acc a = .ok (acc ++ [a]) := by
        simp [loopBody, hv, hz, bind, Except.bind, pure, Except.pure]
      rw [this]
      show l.foldlM (loopBody R user) (acc ++ [a]) = _
      rw [ih (acc ++ [a]) hl, List.filter_cons]
      simp [isCandidate, hv, hz]

theorem loop_eq_zeroColumns (R : Dense) (hR : R.WellFormed) (user : Int)
    (h0 : 0 ≤ user) (h1 : user < R.rows) :
    (List.range R.cols).foldlM (loopBody R user) [] = .ok (zeroColumns R user) := by
  rw [foldlM_loopBody R user _ []]
  · simp [zeroColumns]
  · intro j hj
    obtain ⟨v, hv, _⟩ := R.At_ok hR user j h0 h1 (List.mem_range.mp hj)
    exact ⟨v, hv⟩

theorem mem_zeroColumns (R : Dense) (user : Int) (j : Nat) :
    j ∈ zeroColumns R user ↔ j < R.cols ∧ ∃ v, R.At user j = .ok v ∧ v.isZero = true := by
  unfold zeroColumns isCandidate
  rw [List.mem_filter, List.mem_range]
  constructor
  · rintro ⟨hj, h⟩
    refine ⟨hj, ?_⟩
    cases hv : R.At user j with
    | ok v => rw [hv] at h; exact ⟨v, rfl, h⟩
    | error e => rw [hv] at h; simp at h
  · rintro ⟨hj, v, hv, hz⟩
    exact ⟨hj, by rw [hv]; exact hz⟩

theorem zeroColumns_sorted (R : Dense) (user : Int) :
    (zeroColumns R user).Pairwise (· < ·) :=
  (List.pairwise_lt_range R.cols).filter _

theorem zeroColumns_nodup (R : Dense) (user : Int) : (zeroColumns R user).Nodup :=
  (List.nodup_range R.cols).filter _

theorem lessFunc_agrees (A : Dense) (hA : A.WellFormed) (user : Int)
    (h0 : 0 ≤ user) (h1 : user < A.rows) (xs : List Nat) (hx : ∀ j ∈ xs, j < A.cols) :
    Agrees (lessFunc A user) (scoreLt A user) xs := by
  intro a ha b hb
  obtain ⟨x, hx1, _⟩ := A.At_ok hA user a h0 h1 (hx a ha)
  obtain ⟨y, hy1, _⟩ := A.At_ok hA user b h0 h1 (hx b hb)
  simp [lessFunc, scoreLt, scoreOf, hx1, hy1, bind, Except.bind, pure, Except.pure]

theorem getRecommendations_eq (S : SortSlice) (user : Int) (R A : Dense) (hR : R.WellFormed)
    (h0 : 0 ≤ user) (h1 : user < R.rows) :
    getRecommendations S user R A = S (lessFunc A user) (zeroColumns R user) := by
  unfold getRecommendations
  simp only [loop_eq_zeroColumns R hR user h0 h1]
  rfl


/-! ### float64 comparisons -/

theorem F64.gt_false_of_eq (x y : F64) (h : F64.eq x y = true) : F64.gt y x = false := by
  cases x <;> cases y <;> simp_all [F64.eq, F64.gt]

theorem F64.gt_zero_zero (x y : F64) (hx : x.isZero = true) (hy : y.isZero = true) :
    F64.gt x y = false := by
  cases x <;> cases y <;> simp_all [F64.isZero, F64.eq, F64.gt]

theorem F64.isZero_of_eq (x y : F64) (h : F64.eq y x = true) (hx : x.isZero = true) :
    y.isZero = true := by
  cases x <;> cases y <;> simp_all [F64.isZero, F64.eq]

theorem F64.ge_of_not_gt (x y : F64) (hx : x.isFinite = true) (hy : y.isFinite = true)
    (h : F64.gt y x = false) : F64.ge x y = true := by
  cases x <;> cases y <;> simp_all [F64.isFinite, F64.ge, F64.eq, F64.gt]
  exact le_iff_lt_or_eq.mp (by assumption) |>.imp id Eq.symm

theorem Dense.At_mem (m : Dense) (i j : Int) (v : F64) (h : m.At i j = .ok v) : v ∈ m.data := by
  unfold Dense.At at h
  split_ifs at h
  split at h
  · rename_i w hw
    cases h
    exact List.getElem?_mem hw
  · cases h

theorem scoreOf_finite (A : Dense) (hfin : ∀ v ∈ A.data, v.isFinite = true) (user : Int)
    (j : Nat) : ∃ q, scoreOf A user j = F64.fin q := by
  unfold scoreOf
  cases h : A.At user j with
  | error e => exact ⟨0, rfl⟩
  | ok v =>
    have := hfin v (A.At_mem _ _ _ h)
    cases v <;> simp_all [F64.isFinite]

theorem scoreLt_strictWeak (A : Dense) (hfin : ∀ v ∈ A.data, v.isFinite = true) (user : Int) :
    StrictWeak (scoreLt A user) := by
  refine ⟨fun a => ?_, fun a b c => ?_, fun a b c => ?_⟩
  · obtain ⟨x, hx⟩ := scoreOf_finite A hfin user a
    simp [scoreLt, hx, F64.gt]
  · obtain ⟨x, hx⟩ := scoreOf_finite A hfin user a
    obtain ⟨y, hy⟩ := scoreOf_finite A hfin user b
    obtain ⟨z, hz⟩ := scoreOf_finite A hfin user c
    simp only [scoreLt, hx, hy, hz, F64.gt, decide_eq_true_eq]
    exact fun h1 h2 => lt_trans h2 h1
  · obtain ⟨x, hx⟩ := scoreOf_finite A hfin user a
    obtain ⟨y, hy⟩ := scoreOf_finite A hfin user b
    obtain ⟨z, hz⟩ := scoreOf_finite A hfin user c
    simp only [scoreLt, hx, hy, hz, F64.gt, decide_eq_false_iff_not, not_lt]
    exact fun h1 h2 => le_trans h1 h2

theorem scoreOf_eq (A : Dense) (user : Int) (j : Nat) (v : F64) (h : A.At user j = .ok v) :
    scoreOf A user j = v := by
  simp [scoreOf, h]


/-! ### A sorting routine that meets the contract of `sort.Slice` -/

theorem insertSorted_eq (less : Nat → Nat → GoResult Bool) (lt : Nat → Nat → Bool) (a : Nat)
    (l : List Nat) (h : Agrees less lt (a :: l)) :
    insertSorted less a l = .ok (List.orderedInsert (fun x y => lt y x = false) a l) := by
  induction l with
  | nil => rfl
  | cons b l ih =>
    have hb : less b a = .ok (lt b a) :=
      h b (List.mem_cons_of_mem _ (List.mem_cons_self _ _)) a (List.mem_cons_self _ _)
    have hl : Agrees less lt (a :: l) := by
      intro x hx y hy
      refine h x ?_ y ?_
      · rcases List.mem_cons.mp hx with rfl | hx
        · exact List.mem_cons_self _ _
        · exact List.mem_cons_of_mem _ (List.mem_cons_of_mem _ hx)
      · rcases List.mem_cons.mp hy with rfl | hy
        · exact List.mem_cons_self _ _
        · exact List.mem_cons_of_mem _ (List.mem_cons_of_mem _ hy)
    cases hlt : lt b a
    · simp [insertSorted, hb, hlt, bind, Except.bind, pure, Except.pure]
    · simp [insertSorted, hb, hlt, ih hl, bind, Except.bind, pure, Except.pure]

theorem stableSortSlice_eq (less : Nat → Nat → GoResult Bool) (lt : Nat → Nat → Bool)
    (xs : List Nat) (h : Agrees less lt xs) :
    stableSortSlice less xs = .ok (List.insertionSort (fun x y => lt y x = false) xs) := by
  induction xs with
  | nil => rfl
  | cons a l ih =>
    have hl : Agrees less lt l := fun x hx y hy =>
      h x (List.mem_cons_of_mem _ hx) y (List.mem_cons_of_mem _ hy)
    have hins : Agrees less lt (a :: List.insertionSort (fun x y => lt y x = false) l) := by
      intro x hx y hy
      refine h x ?_ y ?_
      · rcases List.mem_cons.mp hx with rfl | hx
        · exact List.mem_cons_self _ _
        · exact List.mem_cons_of_mem _ ((List.mem_insertionSort _).mp hx)
      · rcases List.mem_cons.mp hy with rfl | hy
        · exact List.mem_cons_self _ _
        · exact List.mem_cons_of_mem _ ((List.mem_insertionSort _).mp hy)
    have ih2 := ih hl
    unfold stableSortSlice at ih2 ⊢
    rw [List.foldrM_cons, ih2]
    exact insertSorted_eq less lt a _ hins

theorem insertionSort_sorted_of_strictWeak (lt : Nat → Nat → Bool) (h : StrictWeak lt)
    (xs : List Nat) :
    (List.insertionSort (fun x y => lt y x = false) xs).Pairwise (fun a b => lt b a = false) := by
  obtain ⟨hirr, htr, hneg⟩ := h
  haveI : IsTotal Nat (fun x y => lt y x = false) := ⟨fun a b => by
    cases h1 : lt b a
    · exact Or.inl rfl
    · cases h2 : lt a b
      · exact Or.inr rfl
      · have := htr a b a h2 h1
        rw [hirr a] at this
        cases this⟩
  haveI : IsTrans Nat (fun x y => lt y x = false) := ⟨fun a b c h1 h2 => hneg c b a h2 h1⟩
  exact List.sorted_insertionSort (fun x y => lt y x = false) xs

theorem stableSortSlice_spec : SortSliceSpec stableSortSlice where
  perm := fun less lt xs h =>
    ⟨_, stableSortSlice_eq less lt xs h, List.perm_insertionSort _ xs⟩
  sorted := fun less lt xs ys h hsw hys => by
    rw [stableSortSlice_eq less lt xs h] at hys
    cases hys
    exact insertionSort_sorted_of_strictWeak lt hsw xs

/-! ### Lists in ascending order -/

theorem pair_sublist_of_ascending (l : List Nat) (hl : l.Pairwise (· < ·)) (a b : Nat)
    (ha : a ∈ l) (hb : b ∈ l) (hab : a < b) : [a, b].Sublist l := by
  induction l with
  | nil => cases ha
  | cons c t ih =>
    obtain ⟨hc, ht⟩ := List.pairwise_cons.mp hl
    rcases List.mem_cons.mp ha with hac | hat
    · rcases List.mem_cons.mp hb with hbc | hbt
      · omega
      · rw [hac]
        exact List.Sublist.cons₂ _ (List.singleton_sublist.mpr hbt)
    · rcases List.mem_cons.mp hb with hbc | hbt
      · have := hc a hat
        omega
      · exact List.Sublist.cons _ (ih ht hat hbt)

/-! ### What `getRecommendations` returns on matrices of the same shape -/

theorem zeroColumns_lt_cols (R : Dense) (user : Int) (j : Nat) (h : j ∈ zeroColumns R user) :
    j < R.cols :=
  ((mem_zeroColumns R user j).mp h).1

theorem getRecommendations_returns (S : SortSlice) (hS : SortSliceSpec S) (R A : Dense)
    (hR : R.WellFormed) (hA : A.WellFormed) (hrows : A.rows = R.rows) (hcols : A.cols = R.cols)
    (user : Int) (h0 : 0 ≤ user) (h1 : user < R.rows) :
    Agrees (lessFunc A user) (scoreLt A user) (zeroColumns R user) ∧
    ∃ ys, getRecommendations S user R A = .ok ys ∧
      S (lessFunc A user) (zeroColumns R user) = .ok ys ∧ ys.Perm (zeroColumns R user) := by
  have hag : Agrees (lessFunc A user) (scoreLt A user) (zeroColumns R user) :=
    lessFunc_agrees A hA user h0 (by omega) _
      (fun j hj => by have := zeroColumns_lt_cols R user j hj; omega)
  obtain ⟨ys, hys, hp⟩ := hS.perm _ _ _ hag
  exact ⟨hag, ys, by rw [getRecommendations_eq S user R A hR h0 h1, hys], hys, hp⟩

/-! ## The claims -/

/-- C1: on matrices of the same shape and a user index inside the row range,
`getRecommendations` returns a list, and every index `j` in it satisfies `R[user, j] == 0`:
only items the user has not interacted with are recommended. -/
theorem recommended_items_have_zero_interaction (S : SortSlice) (hS : SortSliceSpec S)
    (R A : Dense) (hR : R.WellFormed) (hA : A.WellFormed)
    (hrows : A.rows = R.rows) (hcols : A.cols = R.cols)
    (user : Int) (h0 : 0 ≤ user) (h1 : user < R.rows) :
    ∃ ys, getRecommendations S user R A = .ok ys ∧
      ∀ j ∈ ys, ∃ v, R.At user j = .ok v ∧ F64.eq v (F64.fin 0) = true := by
  obtain ⟨_, ys, hys, _, hp⟩ := getRecommendations_returns S hS R A hR hA hrows hcols user h0 h1
  refine ⟨ys, hys, fun j hj => ?_⟩
  exact ((mem_zeroColumns R user j).mp (hp.mem_iff.mp hj)).2

/-- C2: the list returned by `getRecommendations` is the whole candidate set, untruncated: it
is a permutation of the zero-valued columns of row `user`, its length is the number of zeros
in that row, and each column `j` with `R[user, j] == 0` occurs in it exactly once. -/
theorem recommendations_are_all_zero_columns (S : SortSlice) (hS : SortSliceSpec S)
    (R A : Dense) (hR : R.WellFormed) (hA : A.WellFormed)
    (hrows : A.rows = R.rows) (hcols : A.cols = R.cols)
    (user : Int) (h0 : 0 ≤ user) (h1 : user < R.rows) :
    ∃ ys, getRecommendations S user R A = .ok ys ∧
      ys.Perm (zeroColumns R user) ∧
      ys.length = (List.range R.cols).countP (isCandidate R user) ∧
      ∀ j : Nat, j < R.cols → (∃ v, R.At user j = .ok v ∧ F64.eq v (F64.fin 0) = true) →
        ys.count j = 1 := by
  obtain ⟨_, ys, hys, _, hp⟩ := getRecommendations_returns S hS R A hR hA hrows hcols user h0 h1
  refine ⟨ys, hys, hp, ?_, fun j hj hz => ?_⟩
  · rw [hp.length_eq, zeroColumns, List.countP_eq_length_filter]
  · rw [hp.count_eq]
    exact List.count_eq_one_of_mem (zeroColumns_nodup R user)
      ((mem_zeroColumns R user j).mpr ⟨hj, hz⟩)

/-- C3: when the entries of the approximate matrix are finite, the list returned by
`getRecommendations` is sorted by reconstructed score, descending: for positions `p < q` of
the result, `A[user, result[p]] >= A[user, result[q]]`. -/
theorem recommendations_sorted_by_score_descending (S : SortSlice) (hS : SortSliceSpec S)
    (R A : Dense) (hR : R.WellFormed) (hA : A.WellFormed)
    (hrows : A.rows = R.rows) (hcols : A.cols = R.cols)
    (hfin : ∀ v ∈ A.data, v.isFinite = true)
    (user : Int) (h0 : 0 ≤ user) (h1 : user < R.rows) :
    ∃ ys, getRecommendations S user R A = .ok ys ∧
      ∀ (p q a b : Nat), p < q → ys[p]? = some a → ys[q]? = some b →
        ∃ x y, A.At user a = .ok x ∧ A.At user b = .ok y ∧ F64.ge x y = true := by
  obtain ⟨hag, ys, hys, hsort, hp⟩ :=
    getRecommendations_returns S hS R A hR hA hrows hcols user h0 h1
  have hpw := hS.sorted _ _ _ ys hag (scoreLt_strictWeak A hfin user) hsort
  refine ⟨ys, hys, fun p q a b hpq hpa hqb => ?_⟩
  obtain ⟨hp1, hpa⟩ := List.getElem?_eq_some.mp hpa
  obtain ⟨hq1, hqb⟩ := List.getElem?_eq_some.mp hqb
  have hrel := List.pairwise_iff_getElem.mp hpw p q hp1 hq1 hpq
  rw [hpa, hqb] at hrel
  have hca : a < A.cols := by
    have := zeroColumns_lt_cols R user a (hp.mem_iff.mp (hpa ▸ List.getElem_mem _))
    omega
  have hcb : b < A.cols := by
    have := zeroColumns_lt_cols R user b (hp.mem_iff.mp (hqb ▸ List.getElem_mem _))
    omega
  obtain ⟨x, hx, hxm⟩ := A.At_ok hA user a h0 (by omega) hca
  obtain ⟨y, hy, hym⟩ := A.At_ok hA user b h0 (by omega) hcb
  refine ⟨x, y, hx, hy, F64.ge_of_not_gt x y (hfin x hxm) (hfin y hym) ?_⟩
  simpa [scoreLt, scoreOf_eq A user a x hx, scoreOf_eq A user b y hy] using hrel

/-- C7: when row `user` of the original matrix has no zero entry, `getRecommendations`
returns the empty list; it does not panic. -/
theorem no_zero_entry_gives_empty_list (S : SortSlice) (hS : SortSliceSpec S)
    (R A : Dense) (hR : R.WellFormed) (hA : A.WellFormed)
    (hrows : A.rows = R.rows) (hcols : A.cols = R.cols)
    (user : Int) (h0 : 0 ≤ user) (h1 : user < R.rows)
    (hnz : ∀ j : Nat, j < R.cols → ∀ v, R.At user j = .ok v → F64.eq v (F64.fin 0) = false) :
    getRecommendations S user R A = .ok [] := by
  obtain ⟨_, ys, hys, _, hp⟩ := getRecommendations_returns S hS R A hR hA hrows hcols user h0 h1
  have hz : zeroColumns R user = [] := by
    rw [List.eq_nil_iff_forall_not_mem]
    intro j hj
    obtain ⟨hjc, v, hv, hvz⟩ := (mem_zeroColumns R user j).mp hj
    have := hnz j hjc v hv
    rw [F64.isZero] at hvz
    rw [hvz] at this
    cases this
  rw [hz] at hp
  rw [hys, hp.eq_nil]


/-! ### `NewDense` and `MapData` -/

theorem wellFormed_of_length (m : Dense) (hs : m.stride = m.cols)
    (hl : m.data.length = m.rows * m.cols) : m.WellFormed := by
  intro i j hi hj
  rw [hs, hl]
  calc i * m.cols + j < i * m.cols + m.cols := by omega
    _ = (i + 1) * m.cols := by ring
    _ ≤ m.rows * m.cols := Nat.mul_le_mul_right _ hi

theorem NewDense_ok (data : Option (List F64)) (R : Dense) (h : NewDense 5 4 data = .ok R) :
    R.rows = 5 ∧ R.cols = 4 ∧ R.WellFormed := by
  unfold NewDense at h
  rw [if_neg (by omega)] at h
  cases data with
  | none =>
    cases h
    exact ⟨rfl, rfl, wellFormed_of_length _ rfl (by simp)⟩
  | some d =>
    simp only at h
    split_ifs at h with hd
    cases h
    refine ⟨rfl, rfl, wellFormed_of_length _ rfl ?_⟩
    push_neg at hd
    show d.length = 5 * 4
    omega

theorem NewDense_wrong_length (d : List F64) (h : d.length ≠ 20) :
    NewDense 5 4 (some d) = .error Panic.ErrShape := by
  unfold NewDense
  rw [if_neg (by omega)]
  simp only
  rw [if_pos (by omega)]

theorem NewDense_right_length (d : List F64) (h : d.length = 20) :
    NewDense 5 4 (some d) = .ok ⟨5, 4, 4, d⟩ := by
  unfold NewDense
  rw [if_neg (by omega)]
  simp only
  rw [if_neg (by omega)]
  rfl

theorem MapData_of_NewDense (S : SortSlice) (svd : SVD) (data : Option (List F64))
    (userIndex : Int) (R : Dense) (h : NewDense 5 4 data = .ok R) :
    MapData S svd data userIndex =
      if svd.Factorize R = true then getRecommendations S userIndex R (svd.approxR R)
      else .error (Panic.message "SVD factorization failed") := by
  unfold MapData
  rw [h]
  cases hf : svd.Factorize R
  · simp [bind, Except.bind, hf, throw, throwThe, MonadExceptOf.throw]
  · simp only [bind, Except.bind, hf, pure, Except.pure]
    cases getRecommendations S userIndex R (svd.approxR R) <;> rfl

theorem getRecommendations_row_error (S : SortSlice) (user : Int) (R A : Dense)
    (hc : 0 < R.cols) (hu : user < 0 ∨ (R.rows : Int) ≤ user) :
    getRecommendations S user R A = .error Panic.ErrRowAccess := by
  unfold getRecommendations
  obtain ⟨n, hn⟩ : ∃ n, R.cols = n + 1 := ⟨R.cols - 1, by omega⟩
  have h0 : loopBody R user [] 0 = .error Panic.ErrRowAccess := by
    unfold loopBody
    rw [show ((0 : Nat) : Int) = 0 from rfl, R.At_row_error user 0 hu]
    rfl
  simp only [hn, List.range_succ_eq_map, List.foldlM_cons, h0]
  rfl


/-! ### Concrete matrices -/

theorem sampleR_wellFormed : sampleR.WellFormed :=
  wellFormed_of_length sampleR rfl rfl

theorem risingScores_wellFormed : risingScores.WellFormed :=
  wellFormed_of_length risingScores rfl rfl

theorem risingScores_finite : ∀ v ∈ risingScores.data, v.isFinite = true := by
  intro v hv
  simp only [risingScores, List.mem_map] at hv
  obtain ⟨n, _, rfl⟩ := hv
  rfl

theorem tieR_wellFormed : tieR.WellFormed :=
  wellFormed_of_length tieR rfl rfl

theorem tieA_wellFormed : tieA.WellFormed :=
  wellFormed_of_length tieA rfl rfl

theorem fullRow_wellFormed : fullRow.WellFormed :=
  wellFormed_of_length fullRow rfl rfl

theorem fullRow_no_zero (j : Nat) (hj : j < fullRow.cols) (v : F64)
    (hv : fullRow.At 0 j = .ok v) : F64.eq v (F64.fin 0) = false := by
  have h2 : j < 2 := hj
  interval_cases j
  · have : fullRow.At 0 ((0 : Nat) : Int) = .ok (F64.fin 2) := rfl
    rw [this] at hv
    cases hv
    rfl
  · have : fullRow.At 0 ((1 : Nat) : Int) = .ok (F64.fin 5) := rfl
    rw [this] at hv
    cases hv
    rfl

/-! ## Witnesses for C1, C2, C3, C7 -/

theorem recommended_items_have_zero_interaction_witness :
    ∃ ys, getRecommendations stableSortSlice 1 sampleR risingScores = .ok ys ∧
      ∀ j ∈ ys, ∃ v, sampleR.At 1 j = .ok v ∧ F64.eq v (F64.fin 0) = true :=
  recommended_items_have_zero_interaction stableSortSlice stableSortSlice_spec sampleR
    risingScores sampleR_wellFormed risingScores_wellFormed rfl rfl 1 (by decide) (by decide)

theorem recommendations_are_all_zero_columns_witness :
    ∃ ys, getRecommendations stableSortSlice 3 sampleR risingScores = .ok ys ∧
      ys.Perm (zeroColumns sampleR 3) ∧
      ys.length = (List.range sampleR.cols).countP (isCandidate sampleR 3) ∧
      ∀ j : Nat, j < sampleR.cols →
        (∃ v, sampleR.At 3 j = .ok v ∧ F64.eq v (F64.fin 0) = true) → ys.count j = 1 :=
  recommendations_are_all_zero_columns stableSortSlice stableSortSlice_spec sampleR
    risingScores sampleR_wellFormed risingScores_wellFormed rfl rfl 3 (by decide) (by decide)

theorem recommendations_sorted_by_score_descending_witness :
    ∃ ys, getRecommendations stableSortSlice 1 sampleR risingScores = .ok ys ∧
      ∀ (p q a b : Nat), p < q → ys[p]? = some a → ys[q]? = some b →
        ∃ x y, risingScores.At 1 a = .ok x ∧ risingScores.At 1 b = .ok y ∧
          F64.ge x y = true :=
  recommendations_sorted_by_score_descending stableSortSlice stableSortSlice_spec sampleR
    risingScores sampleR_wellFormed risingScores_wellFormed rfl rfl risingScores_finite
    1 (by decide) (by decide)

theorem no_zero_entry_gives_empty_list_witness :
    getRecommendations stableSortSlice 0 fullRow tieA = .ok [] :=
  no_zero_entry_gives_empty_list stableSortSlice stableSortSlice_spec fullRow tieA
    fullRow_wellFormed tieA_wellFormed rfl rfl 0 (by decide) (by decide) fullRow_no_zero


/-! ## Ties: C4 and C10 -/

/-! ### Go's insertion sort -/

theorem getD_append_pair (l : List Nat) (p x : Nat) (rest : List Nat) :
    (l ++ p :: x :: rest).getD l.length 0 = p ∧
    (l ++ p :: x :: rest).getD (l.length + 1) 0 = x := by
  induction l with
  | nil => exact ⟨rfl, rfl⟩
  | cons c l ih => simpa using ih

theorem dataSwap_append_pair (l : List Nat) (p x : Nat) (rest : List Nat) :
    dataSwap (l ++ p :: x :: rest) (l.length + 1) l.length = l ++ x :: p :: rest := by
  obtain ⟨h1, h2⟩ := getD_append_pair l p x rest
  unfold dataSwap
  rw [h1, h2]
  induction l with
  | nil => rfl
  | cons c l ih => simp

theorem insertionInner_eq (less : Nat → Nat → GoResult Bool) (lt : Nat → Nat → Bool)
    (x : Nat) (rp rest : List Nat) (h : ∀ p ∈ rp, less x p = .ok (lt x p)) :
    insertionInner less 0 rp.length (rp.reverse ++ x :: rest) =
      .ok ((List.orderedInsert (fun u v => lt u v = false) x rp).reverse ++ rest) := by
  induction rp generalizing rest with
  | nil => rfl
  | cons p rp ih =>
    have hp : less x p = .ok (lt x p) := h p (List.mem_cons_self _ _)
    have hrp : ∀ q ∈ rp, less x q = .ok (lt x q) := fun q hq => h q (List.mem_cons_of_mem _ hq)
    obtain ⟨h1, h2⟩ := getD_append_pair rp.reverse p x rest
    have hsw := dataSwap_append_pair rp.reverse p x rest
    rw [List.length_reverse] at h1 h2 hsw
    have hdata : (p :: rp).reverse ++ x :: rest = rp.reverse ++ p :: x :: rest := by simp
    rw [List.length_cons, hdata, insertionInner, if_pos (Nat.succ_pos _)]
    simp only [dataLess, h1, h2, hp, bind, Except.bind]
    cases hlt : lt x p
    · simp [hlt, pure, Except.pure]
    · simp [hlt, hsw, ih (p :: rest) hrp]

theorem insertionSort_fold (less : Nat → Nat → GoResult Bool) (lt : Nat → Nat → Bool)
    (rest rp : List Nat)
    (h : ∀ a ∈ rp ++ rest, ∀ b ∈ rp ++ rest, less a b = .ok (lt a b)) :
    (List.range' rp.length rest.length).foldlM (fun data i => insertionInner less 0 i data)
        (rp.reverse ++ rest) =
      .ok (rest.foldl (fun acc x => List.orderedInsert (fun u v => lt u v = false) x acc)
        rp).reverse := by
  induction rest generalizing rp with
  | nil => simp [pure, Except.pure]
  | cons x rest ih =>
    rw [List.length_cons, List.range'_succ, List.foldlM_cons,
      insertionInner_eq less lt x rp rest (fun p hp => h x (by simp) p (by simp [hp]))]
    have hlen : (List.orderedInsert (fun u v => lt u v = false) x rp).length = rp.length + 1 :=
      List.orderedInsert_length _ _ _
    have := ih (List.orderedInsert (fun u v => lt u v = false) x rp) (by
      intro a ha b hb
      refine h a ?_ b ?_
      · rcases List.mem_append.mp ha with ha | ha
        · rcases (List.mem_orderedInsert _).mp ha with rfl | ha
          · simp
          · simp [ha]
        · simp [ha]
      · rcases List.mem_append.mp hb with hb | hb
        · rcases (List.mem_orderedInsert _).mp hb with rfl | hb
          · simp
          · simp [hb]
        · simp [hb])
    rw [hlen] at this
    simpa [bind, Except.bind] using this

theorem foldl_orderedInsert (r : Nat → Nat → Prop) [DecidableRel r] (xs acc : List Nat) :
    xs.foldl (fun acc x => List.orderedInsert r x acc) acc =
      xs.reverse.foldr (fun x acc => List.orderedInsert r x acc) acc := by
  rw [List.foldr_reverse]

theorem insertionSort_eq_foldr (r : Nat → Nat → Prop) [DecidableRel r] (xs : List Nat) :
    List.insertionSort r xs = xs.foldr (fun x acc => List.orderedInsert r x acc) [] := by
  induction xs with
  | nil => rfl
  | cons a l ih => simp [List.insertionSort, ih]

theorem insertionSortLessFunc_eq (less : Nat → Nat → GoResult Bool) (lt : Nat → Nat → Bool)
    (xs : List Nat) (h : Agrees less lt xs) :
    insertionSortLessFunc less xs 0 xs.length =
      .ok (List.insertionSort (fun u v => lt u v = false) xs.reverse).reverse := by
  unfold insertionSortLessFunc
  cases xs with
  | nil => rfl
  | cons x rest =>
    have := insertionSort_fold less lt rest [x]
      (fun a ha b hb => h a (by simpa using ha) b (by simpa using hb))
    simp only [List.length_cons, List.length_nil, Nat.zero_add, List.reverse_cons,
      List.reverse_nil, List.nil_append, List.singleton_append, Nat.add_sub_cancel] at this ⊢
    rw [this, insertionSort_eq_foldr, List.foldr_append, List.foldr_reverse]
    rfl

theorem goSortSlice_short (next : Nat → Nat) (less : Nat → Nat → GoResult Bool)
    (xs : List Nat) (h : xs.length ≤ 12) :
    goSortSlice next less xs = insertionSortLessFunc less xs 0 xs.length := by
  unfold goSortSlice
  cases hn : xs.length with
  | zero => rfl
  | succ n =>
    rw [pdqsortLessFunc]
    simp only [Nat.sub_zero]
    rw [if_pos (by omega)]


/-! ### `sort.Slice` on a slice in which no element must sort before another -/

theorem order2_of_not_less (less : Nat → Nat → GoResult Bool) (data : List Nat)
    (a b swaps : Nat) (h : dataLess less data b a = .ok false) :
    order2LessFunc less data a b swaps = .ok (a, b, swaps) := by
  simp [order2LessFunc, h, bind, Except.bind, pure, Except.pure]

theorem median_of_not_less (less : Nat → Nat → GoResult Bool) (data : List Nat)
    (a b c swaps : Nat) (hba : dataLess less data b a = .ok false)
    (hcb : dataLess less data c b = .ok false) :
    medianLessFunc less data a b c swaps = .ok (b, swaps) := by
  simp [medianLessFunc, order2_of_not_less, hba, hcb, bind, Except.bind, pure, Except.pure]

theorem choosePivot_of_not_less (less : Nat → Nat → GoResult Bool) (data : List Nat) (n : Nat)
    (hn : 12 < n) (H : ∀ i j, i < n → j < n → dataLess less data i j = .ok false) :
    ∃ pivot, choosePivotLessFunc less data 0 n = .ok (pivot, sortedHint.increasingHint) := by
  refine ⟨n / 4 * 2, ?_⟩
  have h8 : n ≥ 8 := by omega
  by_cases h50 : n ≥ 50
  · have m1 := median_of_not_less less data (n / 4 * 1 - 1) (n / 4 * 1) (n / 4 * 1 + 1) 0
      (H _ _ (by omega) (by omega)) (H _ _ (by omega) (by omega))
    have m2 := median_of_not_less less data (n / 4 * 2 - 1) (n / 4 * 2) (n / 4 * 2 + 1) 0
      (H _ _ (by omega) (by omega)) (H _ _ (by omega) (by omega))
    have m3 := median_of_not_less less data (n / 4 * 3 - 1) (n / 4 * 3) (n / 4 * 3 + 1) 0
      (H _ _ (by omega) (by omega)) (H _ _ (by omega) (by omega))
    have m4 := median_of_not_less less data (n / 4 * 1) (n / 4 * 2) (n / 4 * 3) 0
      (H _ _ (by omega) (by omega)) (H _ _ (by omega) (by omega))
    simp only [Nat.mul_one] at m1 m4
    simp [choosePivotLessFunc, medianAdjacentLessFunc, h8, h50, m1, m2, m3, m4, bind,
      Except.bind, pure, Except.pure]
  · have m4 := median_of_not_less less data (n / 4 * 1) (n / 4 * 2) (n / 4 * 3) 0
      (H _ _ (by omega) (by omega)) (H _ _ (by omega) (by omega))
    simp only [Nat.mul_one] at m4
    simp [choosePivotLessFunc, h8, h50, m4, bind, Except.bind, pure, Except.pure]

theorem scanUp_all (cond : Nat → GoResult Bool) (j : Nat) (fuel i : Nat)
    (hc : ∀ k, i ≤ k → k ≤ j → cond k = .ok true) (hi : i ≤ j + 1) (hf : j + 1 - i ≤ fuel) :
    scanUp cond j fuel i = .ok (j + 1) := by
  induction fuel generalizing i with
  | zero =>
    have : i = j + 1 := by omega
    rw [this]
    rfl
  | succ fuel ih =>
    unfold scanUp
    by_cases hij : i ≤ j
    · rw [if_pos hij, hc i (Nat.le_refl _) hij]
      simp only [bind, Except.bind, if_true]
      exact ih (i + 1) (fun k hk hkj => hc k (by omega) hkj) (by omega) (by omega)
    · rw [if_neg hij]
      have : i = j + 1 := by omega
      rw [this]
      rfl

theorem partialInsertionSort_of_not_less (less : Nat → Nat → GoResult Bool) (data : List Nat)
    (hn : 12 < data.length)
    (H : ∀ i j, i < data.length → j < data.length → dataLess less data i j = .ok false) :
    partialInsertionSortLessFunc less data 0 data.length = .ok (data, true) := by
  unfold partialInsertionSortLessFunc partialInsertionLoop
  rw [scanUp_all _ (data.length - 1) data.length 1 (fun k hk hkj => by
    simp [H k (k - 1) (by omega) (by omega), bind, Except.bind, pure, Except.pure])
    (by omega) (by omega)]
  simp only [bind, Except.bind]
  rw [if_pos (by omega)]
  rfl

theorem bitsLen_pos (n : Nat) (hn : 0 < n) : bitsLen n ≠ 0 := by
  unfold bitsLen
  cases n with
  | zero => omega
  | succ m =>
    unfold bitsLenAux
    rw [if_neg (by omega)]
    omega

theorem dataLess_of_not_less (less : Nat → Nat → GoResult Bool) (xs : List Nat)
    (hf : ∀ a ∈ xs, ∀ b ∈ xs, less a b = .ok false) (i j : Nat)
    (hi : i < xs.length) (hj : j < xs.length) : dataLess less xs i j = .ok false := by
  unfold dataLess
  rw [List.getD_eq_getElem _ _ hi, List.getD_eq_getElem _ _ hj]
  exact hf _ (List.getElem_mem _) _ (List.getElem_mem _)

theorem goSortSlice_of_not_less (next : Nat → Nat) (less : Nat → Nat → GoResult Bool)
    (xs : List Nat) (hf : ∀ a ∈ xs, ∀ b ∈ xs, less a b = .ok false) :
    goSortSlice next less xs = .ok xs := by
  by_cases hn : xs.length ≤ 12
  · rw [goSortSlice_short next less xs hn,
      insertionSortLessFunc_eq less (fun _ _ => false) xs hf]
    rw [List.Sorted.insertionSort_eq (List.pairwise_of_forall (fun _ _ => rfl)),
      List.reverse_reverse]
  · have H := dataLess_of_not_less less xs hf
    obtain ⟨pivot, hp⟩ := choosePivot_of_not_less less xs xs.length (by omega) H
    have hins := partialInsertionSort_of_not_less less xs (by omega) H
    have hlim := bitsLen_pos xs.length (by omega)
    unfold goSortSlice
    obtain ⟨m, hm⟩ : ∃ m, xs.length = m + 1 := ⟨xs.length - 1, by omega⟩
    rw [show pdqsortLessFunc next less xs.length xs 0 xs.length (bitsLen xs.length) true true =
      pdqsortLessFunc next less (m + 1) xs 0 xs.length (bitsLen xs.length) true true by rw [hm]]
    rw [pdqsortLessFunc]
    simp [hn, hlim, hp, hins, bind, Except.bind, pure, Except.pure]

theorem goSortSlice_short_eq (next : Nat → Nat) (less : Nat → Nat → GoResult Bool)
    (lt : Nat → Nat → Bool) (xs : List Nat) (hn : xs.length ≤ 12) (h : Agrees less lt xs) :
    goSortSlice next less xs =
      .ok (List.insertionSort (fun u v => lt u v = false) xs.reverse).reverse := by
  rw [goSortSlice_short next less xs hn, insertionSortLessFunc_eq less lt xs h]

/-- On a slice of at most 12 elements `goSortSlice` meets the contract `SortSliceSpec` asks
for: it returns a permutation, sorted when the less function is a strict weak order. -/
theorem goSortSlice_short_meets_contract (next : Nat → Nat)
    (less : Nat → Nat → GoResult Bool) (lt : Nat → Nat → Bool) (xs : List Nat)
    (hn : xs.length ≤ 12) (h : Agrees less lt xs) :
    ∃ ys, goSortSlice next less xs = .ok ys ∧ ys.Perm xs ∧
      (StrictWeak lt → ys.Pairwise (fun a b => lt b a = false)) := by
  refine ⟨_, goSortSlice_short_eq next less lt xs hn h, ?_, fun hsw => ?_⟩
  · exact (List.reverse_perm _).trans
      ((List.perm_insertionSort _ xs.reverse).trans (List.reverse_perm xs))
  · obtain ⟨hirr, htr, hneg⟩ := hsw
    haveI : IsTotal Nat (fun u v => lt u v = false) := ⟨fun a b => by
      cases h1 : lt a b
      · exact Or.inl rfl
      · cases h2 : lt b a
        · exact Or.inr rfl
        · have := htr a b a h1 h2
          rw [hirr a] at this
          cases this⟩
    haveI : IsTrans Nat (fun u v => lt u v = false) := ⟨fun a b c h1 h2 => hneg a b c h1 h2⟩
    rw [List.pairwise_reverse]
    exact List.sorted_insertionSort (fun u v => lt u v = false) xs.reverse

theorem thirteenR_wellFormed : thirteenR.WellFormed :=
  wellFormed_of_length thirteenR rfl rfl

theorem thirteenA_wellFormed : thirteenA.WellFormed :=
  wellFormed_of_length thirteenA rfl rfl

/-- The result on `thirteenR`, `thirteenA` does not depend on the pseudo-random step: with 13
elements `breakPatterns` is not reached. -/
theorem thirteen_candidates_any_next (next : Nat → Nat) :
    getRecommendations (goSortSlice next) 0 thirteenR thirteenA =
      .ok [12, 6, 2, 3, 4, 5, 0, 7, 8, 9, 10, 11, 1] :=
  rfl

/-- C4, counterexample: one user, thirteen candidate items, reconstructed score 1 for items
0 to 11 and 2 for item 12.  `getRecommendations` returns
`[12, 6, 2, 3, 4, 5, 0, 7, 8, 9, 10, 11, 1]`: items 2 and 6 have equal scores, yet 6 comes
before 2 (the partition step of `sort.Slice` swaps its pivot, item 6, to the front of the
slice). -/
theorem tie_not_broken_by_ascending_index :
    thirteenR.WellFormed ∧ thirteenA.WellFormed ∧
    getRecommendations (goSortSlice id) 0 thirteenR thirteenA =
      .ok [12, 6, 2, 3, 4, 5, 0, 7, 8, 9, 10, 11, 1] ∧
    thirteenA.At 0 (2 : Nat) = .ok (F64.fin 1) ∧ thirteenA.At 0 (6 : Nat) = .ok (F64.fin 1) ∧
    F64.eq (F64.fin 1) (F64.fin 1) = true ∧
    ¬ [2, 6].Sublist [12, 6, 2, 3, 4, 5, 0, 7, 8, 9, 10, 11, 1] :=
  ⟨thirteenR_wellFormed, thirteenA_wellFormed, rfl, rfl, rfl, rfl, by decide⟩

/-- C4 (amended): when row `user` of the original matrix has at most 12 zero entries, ties in
the reconstructed score are broken by ascending item index: two returned items `a < b` with
`A[user, a] == A[user, b]` appear with `a` before `b`. -/
theorem ties_ascending_up_to_twelve_candidates (next : Nat → Nat) (R A : Dense)
    (hR : R.WellFormed) (hA : A.WellFormed) (hrows : A.rows = R.rows) (hcols : A.cols = R.cols)
    (user : Int) (h0 : 0 ≤ user) (h1 : user < R.rows)
    (h12 : (List.range R.cols).countP (isCandidate R user) ≤ 12) :
    ∃ ys, getRecommendations (goSortSlice next) user R A = .ok ys ∧
      ∀ (a b : Nat) (x y : F64), a ∈ ys → b ∈ ys → A.At user a = .ok x → A.At user b = .ok y →
        F64.eq x y = true → a < b → [a, b].Sublist ys := by
  have hag : Agrees (lessFunc A user) (scoreLt A user) (zeroColumns R user) :=
    lessFunc_agrees A hA user h0 (by omega) _
      (fun j hj => by have := zeroColumns_lt_cols R user j hj; omega)
  have hlen : (zeroColumns R user).length ≤ 12 := by
    rw [zeroColumns, ← List.countP_eq_length_filter]
    exact h12
  refine ⟨_, by rw [getRecommendations_eq _ user R A hR h0 h1,
    goSortSlice_short_eq next _ _ _ hlen hag], fun a b x y ha hb hx hy hxy hab => ?_⟩
  have ha2 : a ∈ zeroColumns R user :=
    List.mem_reverse.mp ((List.mem_insertionSort _).mp (List.mem_reverse.mp ha))
  have hb2 : b ∈ zeroColumns R user :=
    List.mem_reverse.mp ((List.mem_insertionSort _).mp (List.mem_reverse.mp hb))
  have hsub := pair_sublist_of_ascending _ (zeroColumns_sorted R user) a b ha2 hb2 hab
  have hlt : scoreLt A user b a = false := by
    rw [scoreLt, scoreOf_eq A user a x hx, scoreOf_eq A user b y hy]
    exact F64.gt_false_of_eq x y hxy
  have hrev : [b, a].Sublist (zeroColumns R user).reverse := by
    simpa using hsub.reverse
  have := @List.pair_sublist_insertionSort Nat (fun u v => scoreLt A user u v = false) _ b a
    (zeroColumns R user).reverse hlt hrev
  simpa using this.reverse

theorem ties_ascending_up_to_twelve_candidates_witness :
    ∃ ys, getRecommendations (goSortSlice id) 0 tieR tieA = .ok ys ∧
      ∀ (a b : Nat) (x y : F64), a ∈ ys → b ∈ ys → tieA.At 0 a = .ok x → tieA.At 0 b = .ok y →
        F64.eq x y = true → a < b → [a, b].Sublist ys :=
  ties_ascending_up_to_twelve_candidates id tieR tieA tieR_wellFormed tieA_wellFormed rfl rfl 0
    (by decide) (by decide) (by decide)

/-- C10: if the approximate matrix reproduces the original on the queried row
(`A[user, j] == R[user, j]` for every column `j`), then every candidate has score 0 and
`getRecommendations` returns the zero-valued columns of row `user` in ascending index order:
the ranking adds nothing to the filter. -/
theorem exact_row_gives_zero_columns_ascending (next : Nat → Nat) (R A : Dense)
    (hR : R.WellFormed) (hA : A.WellFormed) (hrows : A.rows = R.rows) (hcols : A.cols = R.cols)
    (user : Int) (h0 : 0 ≤ user) (h1 : user < R.rows)
    (hrow : ∀ j : Nat, j < R.cols → ∀ x y, R.At user j = .ok x → A.At user j = .ok y →
      F64.eq y x = true) :
    getRecommendations (goSortSlice next) user R A = .ok (zeroColumns R user) ∧
    (∀ j ∈ zeroColumns R user, ∃ y, A.At user j = .ok y ∧ F64.eq y (F64.fin 0) = true) ∧
    (zeroColumns R user).Pairwise (· < ·) := by
  have hzero : ∀ j ∈ zeroColumns R user, ∃ y, A.At user j = .ok y ∧ y.isZero = true := by
    intro j hj
    obtain ⟨hjc, x, hx, hxz⟩ := (mem_zeroColumns R user j).mp hj
    obtain ⟨y, hy, _⟩ := A.At_ok hA user j h0 (by omega) (by omega)
    exact ⟨y, hy, F64.isZero_of_eq x y (hrow j hjc x y hx hy) hxz⟩
  have hag : Agrees (lessFunc A user) (scoreLt A user) (zeroColumns R user) :=
    lessFunc_agrees A hA user h0 (by omega) _
      (fun j hj => by have := zeroColumns_lt_cols R user j hj; omega)
  have hf : ∀ a ∈ zeroColumns R user, ∀ b ∈ zeroColumns R user,
      lessFunc A user a b = .ok false := by
    intro a ha b hb
    obtain ⟨x, hx, hxz⟩ := hzero a ha
    obtain ⟨y, hy, hyz⟩ := hzero b hb
    rw [hag a ha b hb, scoreLt, scoreOf_eq A user a x hx, scoreOf_eq A user b y hy,
      F64.gt_zero_zero x y hxz hyz]
  refine ⟨?_, hzero, zeroColumns_sorted R user⟩
  rw [getRecommendations_eq _ user R A hR h0 h1]
  exact goSortSlice_of_not_less next _ _ hf

theorem exact_row_gives_zero_columns_ascending_witness :
    getRecommendations (goSortSlice id) 1 sampleR sampleR = .ok (zeroColumns sampleR 1) ∧
    (∀ j ∈ zeroColumns sampleR 1, ∃ y, sampleR.At 1 j = .ok y ∧
      F64.eq y (F64.fin 0) = true) ∧
    (zeroColumns sampleR 1).Pairwise (· < ·) :=
  exact_row_gives_zero_columns_ascending id sampleR sampleR sampleR_wellFormed
    sampleR_wellFormed rfl rfl 1 (by decide) (by decide)
    (fun j _ x y hx hy => by
      rw [hx] at hy
      cases hy
      have hm := sampleR.At_mem _ _ _ hx
      simp only [sampleR, sampleData, List.mem_map] at hm
      obtain ⟨n, _, rfl⟩ := hm
      simp [F64.eq])

/-! ## Failures: C6, C8, C9 -/

/-- The row check of `At` is only reached through the loop: on the empty matrix the loop body
never runs and the call returns the empty list for any user index. -/
theorem empty_matrix_is_never_read (user : Int) :
    getRecommendations stableSortSlice user emptyDense emptyDense = .ok [] :=
  rfl

/-- C6: a user index outside the row range (negative, or at least the number of rows) makes
`getRecommendations` panic with gonum's row-index-out-of-range error on its first read of the
original matrix (which has at least one column); `MapData`, whose matrix has 5 rows, then
never returns a list, and panics with that same error once the data has been accepted and
factorized. -/
theorem user_out_of_range_panics (S : SortSlice) (svd : SVD) (user : Int) (R A : Dense)
    (data : Option (List F64)) :
    (0 < R.cols → (user < 0 ∨ (R.rows : Int) ≤ user) →
      getRecommendations S user R A = .error Panic.ErrRowAccess) ∧
    ((user < 0 ∨ 5 ≤ user) →
      (∀ ys, MapData S svd data user ≠ .ok ys) ∧
      (∀ M, NewDense 5 4 data = .ok M → svd.Factorize M = true →
        MapData S svd data user = .error Panic.ErrRowAccess)) := by
  refine ⟨getRecommendations_row_error S user R A, fun hu => ?_⟩
  have key : ∀ M, NewDense 5 4 data = .ok M → svd.Factorize M = true →
      MapData S svd data user = .error Panic.ErrRowAccess := by
    intro M hM hf
    obtain ⟨hr, hc, _⟩ := NewDense_ok data M hM
    rw [MapData_of_NewDense S svd data user M hM, if_pos hf]
    exact getRecommendations_row_error S user M _ (by omega) (by omega)
  refine ⟨fun ys hys => ?_, key⟩
  cases hM : NewDense 5 4 data with
  | error e =>
    unfold MapData at hys
    rw [hM] at hys
    cases hys
  | ok M =>
    cases hf : svd.Factorize M
    · rw [MapData_of_NewDense S svd data user M hM, if_neg (by simp [hf])] at hys
      cases hys
    · rw [key M hM hf] at hys
      cases hys

theorem user_out_of_range_panics_witness :
    getRecommendations stableSortSlice 5 sampleR sampleR = .error Panic.ErrRowAccess ∧
    (∀ ys, MapData stableSortSlice exactSVD (some sampleData) 5 ≠ .ok ys) ∧
    MapData stableSortSlice exactSVD (some sampleData) 5 = .error Panic.ErrRowAccess :=
  have h := user_out_of_range_panics stableSortSlice exactSVD 5 sampleR sampleR
    (some sampleData)
  have h2 := h.2 (Or.inr (by decide))
  ⟨h.1 (by decide) (Or.inr (by decide)), h2.1, h2.2 sampleR rfl rfl⟩

/-- C8, counterexample: on the sample data with an SVD whose factorization does not succeed,
the call of `MapData` panics with "SVD factorization failed"; it does not return, so no
failure value reaches the caller. -/
theorem factorization_failure_is_not_returned :
    MapData stableSortSlice failingSVD (some sampleData) 1 =
      .error (Panic.message "SVD factorization failed") ∧
    ¬ ∃ v, MapData stableSortSlice failingSVD (some sampleData) 1 = .ok v :=
  ⟨rfl, fun ⟨_, hv⟩ => by cases hv⟩

/-- C8 (amended): whenever the SVD routine reports that the factorization of the matrix built
from the data did not succeed, `MapData` panics with the message "SVD factorization failed"
and returns no recommendation list, whether partial, zero or empty. -/
theorem factorization_failure_panics (S : SortSlice) (svd : SVD) (data : Option (List F64))
    (userIndex : Int) (R : Dense) (hR : NewDense 5 4 data = .ok R)
    (hf : svd.Factorize R = false) :
    MapData S svd data userIndex = .error (Panic.message "SVD factorization failed") ∧
    ∀ ys, MapData S svd data userIndex ≠ .ok ys := by
  have h : MapData S svd data userIndex = .error (Panic.message "SVD factorization failed") := by
    rw [MapData_of_NewDense S svd data userIndex R hR, if_neg (by simp [hf])]
  refine ⟨h, fun ys hys => ?_⟩
  rw [h] at hys
  cases hys

theorem factorization_failure_panics_witness :
    MapData (goSortSlice id) failingSVD (some sampleData) 4 =
      .error (Panic.message "SVD factorization failed") ∧
    ∀ ys, MapData (goSortSlice id) failingSVD (some sampleData) 4 ≠ .ok ys :=
  factorization_failure_panics (goSortSlice id) failingSVD (some sampleData) 4 sampleR rfl rfl

/-- C9, counterexample: handed the six entries of a well-formed 2x3 matrix, `MapData` panics
with gonum's dimension-mismatch error instead of returning a recommendation list. -/
theorem two_by_three_matrix_is_rejected :
    twoByThree.length = 2 * 3 ∧
    MapData stableSortSlice exactSVD (some twoByThree) 0 = .error Panic.ErrShape :=
  ⟨rfl, rfl⟩

/-- C9 (amended): `MapData` takes no shape, it always reads the data as a 5x4 matrix.  Data
whose length is not 20 makes it panic with gonum's dimension-mismatch error; data of length 20
gives a recommendation list, provided the factorization succeeds, the reconstructed matrix is
5x4 and the user index lies in [0, 5). -/
theorem MapData_shape_is_fixed (S : SortSlice) (hS : SortSliceSpec S) (svd : SVD)
    (d : List F64) (userIndex : Int) :
    (d.length ≠ 20 → MapData S svd (some d) userIndex = .error Panic.ErrShape) ∧
    (d.length = 20 → svd.Factorize ⟨5, 4, 4, d⟩ = true →
      (svd.approxR ⟨5, 4, 4, d⟩).WellFormed →
      (svd.approxR ⟨5, 4, 4, d⟩).rows = 5 → (svd.approxR ⟨5, 4, 4, d⟩).cols = 4 →
      0 ≤ userIndex → userIndex < 5 →
      ∃ ys, MapData S svd (some d) userIndex = .ok ys ∧
        ys.Perm (zeroColumns ⟨5, 4, 4, d⟩ userIndex)) := by
  constructor
  · intro hd
    unfold MapData
    rw [NewDense_wrong_length d hd]
    rfl
  · intro hd hf hwf hr hc h0 h1
    have hM := NewDense_right_length d hd
    obtain ⟨_, _, hR⟩ := NewDense_ok _ _ hM
    obtain ⟨_, ys, hys, _, hp⟩ :=
      getRecommendations_returns S hS ⟨5, 4, 4, d⟩ _ hR hwf hr hc userIndex h0 (by simpa using h1)
    exact ⟨ys, by rw [MapData_of_NewDense S svd _ userIndex _ hM, if_pos hf, hys], hp⟩

theorem MapData_shape_is_fixed_witness :
    MapData stableSortSlice risingSVD (some twoByThree) 1 = .error Panic.ErrShape ∧
    ∃ ys, MapData stableSortSlice risingSVD (some sampleData) 1 = .ok ys ∧
      ys.Perm (zeroColumns ⟨5, 4, 4, sampleData⟩ 1) :=
  ⟨(MapData_shape_is_fixed stableSortSlice stableSortSlice_spec risingSVD twoByThree 1).1
      (by decide),
    (MapData_shape_is_fixed stableSortSlice stableSortSlice_spec risingSVD sampleData 1).2
      rfl rfl risingScores_wellFormed rfl rfl (by decide) (by decide)⟩


/-! ## The sample matrix (C5)

What `MapData` returns for users 1 and 3 of the sample matrix is decided by the sign of
`approxR[u, 1] - approxR[u, 2]`, two float64 values computed by gonum's SVD and matrix product.
Only the rows with a single zero are settled by the filter alone. -/

theorem sample_rows_with_one_zero (S : SortSlice) (hS : SortSliceSpec S) (A : Dense)
    (hA : A.WellFormed) (hrows : A.rows = 5) (hcols : A.cols = 4) :
    getRecommendations S 0 sampleR A = .ok [2] ∧
    getRecommendations S 2 sampleR A = .ok [2] ∧
    getRecommendations S 4 sampleR A = .ok [0] := by
  refine ⟨?_, ?_, ?_⟩
  · obtain ⟨_, ys, hys, _, hp⟩ := getRecommendations_returns S hS sampleR A sampleR_wellFormed
      hA hrows hcols 0 (by decide) (by decide)
    rw [hys, show zeroColumns sampleR 0 = [2] from rfl] at *
    rw [List.perm_singleton.mp hp]
  · obtain ⟨_, ys, hys, _, hp⟩ := getRecommendations_returns S hS sampleR A sampleR_wellFormed
      hA hrows hcols 2 (by decide) (by decide)
    rw [hys, show zeroColumns sampleR 2 = [2] from rfl] at *
    rw [List.perm_singleton.mp hp]
  · obtain ⟨_, ys, hys, _, hp⟩ := getRecommendations_returns S hS sampleR A sampleR_wellFormed
      hA hrows hcols 4 (by decide) (by decide)
    rw [hys, show zeroColumns sampleR 4 = [0] from rfl] at *
    rw [List.perm_singleton.mp hp]

theorem sample_user_one_depends_on_scores :
    MapData stableSortSlice exactSVD (some sampleData) 1 = .ok [1, 2] ∧
    MapData stableSortSlice risingSVD (some sampleData) 1 = .ok [2, 1] :=
  ⟨rfl, rfl⟩

end Recommendations
